import Mathlib

/-!
Verification of the QCFractal workflow-engine specification against a shallow
embedding of the repository's source.

The embedding covers:
* specification canonicalisation and deduplication (singlepoint and NEB
  add_specification),
* NEB record creation with deduplication (NEBRecordSocket.add_internal / add),
* the service spawn step (NEBRecordSocket.submit_singlepoints /
  submit_optimizations),
* transition-state selection (NEBRecordSocket.get_neb_result),
* dataset creation and submission (BaseDatasetSocket.add / submit),
* the record status machine with cancel/uncancel, soft-delete/undelete and
  upward propagation of child status changes.

Database tables are modelled as lists of rows; sockets are pure state
transformers on those lists.
-/

namespace QCF

/-- Record statuses (RecordStatusEnum in qcportal.record_models). -/
inductive RecordStatus where
  | waiting
  | running
  | complete
  | error
  | cancelled
  | invalid
  | deleted
deriving DecidableEq, Repr

/-- Metadata returned by insertion operations
(InsertMetadata in qcportal.metadata_models). -/
structure InsertMeta where
  inserted_idx : List Nat
  existing_idx : List Nat
  error_description : Option String := none
deriving DecidableEq, Repr

/-! ## Specifications and their canonicalisation (claim C1)

The singlepoint specification model and its socket are not under src/ (only
the tests in test_specification_socket.py are), so they are modelled from the
spec.  The NEB-level add_specification is embedded from
NEBRecordSocket.add_specification. -/

/-- Modelled from the spec: a singlepoint QC specification as submitted by a
client (the qcportal SinglePointSpecification model is not in src).
Keywords and protocol sub-fields are abstracted as association lists. -/
structure QCSpec where
  program : String
  driver : String
  method : String
  basis : Option String
  keywords : List (String × String)
  protocols : List (String × String)
deriving DecidableEq, Repr

/-- Lowercase a single character (ASCII, as Python str.lower does for the
chemistry identifiers involved). -/
def lowerChar (c : Char) : Char :=
  if 65 ≤ c.toNat ∧ c.toNat ≤ 90 then Char.ofNat (c.toNat + 32) else c

/-- Lowercase a string. -/
def lowerStr (s : String) : String := ⟨s.data.map lowerChar⟩

/-- Modelled from the spec: default values of protocol sub-fields.  A
sub-field holding its default is elided before the specification is stored or
compared (see test_singlepointrecord_socket_add_specification_same_3/4/5). -/
def protocolDefault : String → Option String
  | "wavefunction" => some "none"
  | "stdout" => some "true"
  | "error_correction" => some "default"
  | _ => none

/-- Drop protocol sub-fields that hold their default value. -/
def elideDefaults (ps : List (String × String)) : List (String × String) :=
  ps.filter (fun kv => !(protocolDefault kv.1 == some kv.2))

/-- Modelled from the spec: canonical basis — lowercased, the empty string
identified with null. -/
def canonBasis : Option String → Option String
  | none => none
  | some b => if b = "" then none else some (lowerStr b)

/-- Modelled from the spec: the canonicalised content of a QC specification:
program and method lowercased, basis canonicalised, default-valued protocol
sub-fields elided before hashing. -/
def canonQCSpec (s : QCSpec) : QCSpec :=
  { s with
    program := lowerStr s.program
    method := lowerStr s.method
    basis := canonBasis s.basis
    protocols := elideDefaults s.protocols }

/-- The global QC specification table: rows of (id, canonical content). -/
abbrev QCSpecTable := List (Nat × QCSpec)

/-- Find the id of a row whose canonical content equals the given one. -/
def lookupQCSpec (t : QCSpecTable) (c : QCSpec) : Option Nat :=
  (t.find? (fun e => decide (e.2 = c))).map (·.1)

/-- Modelled from the spec: the singlepoint add_specification socket —
insert-or-return keyed on the canonicalised content, following the
insert-on-conflict-do-nothing / select-existing pattern used by
NEBRecordSocket.add_specification. -/
def sp_add_specification (s : QCSpec) (t : QCSpecTable) :
    InsertMeta × Nat × QCSpecTable :=
  let c := canonQCSpec s
  match lookupQCSpec t c with
  | some i => ({ inserted_idx := [], existing_idx := [0] }, i, t)
  | none =>
    let i := t.length + 1
    ({ inserted_idx := [0], existing_idx := [] }, i, t ++ [(i, c)])

/-- An NEB specification as submitted: program, NEB keywords, and the inner
singlepoint specification (NEBSpecification in qcportal.neb). -/
structure NEBSpec where
  program : String
  keywords : List (String × String)
  singlepoint_specification : QCSpec
deriving DecidableEq, Repr

/-- A stored row of the NEB specification table (NEBSpecificationORM). -/
structure NEBSpecRow where
  id : Nat
  program : String
  keywords : List (String × String)
  singlepoint_specification_id : Nat
deriving DecidableEq, Repr

/-- The specification state: the global QC spec table and the NEB spec table. -/
structure SpecTables where
  qc : QCSpecTable
  neb : List NEBSpecRow
deriving DecidableEq, Repr

/-- Find an NEB specification row by its content key
(program, keywords, singlepoint_specification_id). -/
def lookupNEBSpec (t : List NEBSpecRow) (prog : String)
    (kw : List (String × String)) (spid : Nat) : Option Nat :=
  (t.find? (fun r =>
    decide (r.program = prog ∧ r.keywords = kw ∧
            r.singlepoint_specification_id = spid))).map (·.id)

/-- NEBRecordSocket.add_specification: add the inner singlepoint
specification, then insert the (program, keywords, sp-spec-id) row with
on-conflict-do-nothing, or select and return the existing row's id.  The
lowercasing of program performed by the qcportal NEBSpecification validator
(not in src) is modelled from the spec. -/
def neb_add_specification (s : NEBSpec) (st : SpecTables) :
    InsertMeta × Nat × SpecTables :=
  let prog := lowerStr s.program
  let r := sp_add_specification s.singlepoint_specification st.qc
  let spid := r.2.1
  let qc := r.2.2
  match lookupNEBSpec st.neb prog s.keywords spid with
  | some i => ({ inserted_idx := [], existing_idx := [0] }, i, ⟨qc, st.neb⟩)
  | none =>
    let i := st.neb.length + 1
    ({ inserted_idx := [0], existing_idx := [] }, i,
      ⟨qc, st.neb ++ [⟨i, prog, s.keywords, spid⟩]⟩)

/-- The canonical content of a full NEB specification (the §3 canonicalisation
rules applied to every content field). -/
def canonNEBSpec (s : NEBSpec) : NEBSpec :=
  { program := lowerStr s.program
    keywords := s.keywords
    singlepoint_specification := canonQCSpec s.singlepoint_specification }

/-! ## NEB record creation with dedup (claims C2, C10)

Embedded from NEBRecordSocket.add_internal and NEBRecordSocket.add. -/

/-- A stored NEB record row joined with its initial chain: the CTE in
add_internal aggregates the NEBInitialchainORM molecule ids of each record in
position order, so the row carries the ordered molecule-id list directly. -/
structure NEBRecordRow where
  id : Nat
  specification_id : Nat
  molecule_ids : List Nat
  status : RecordStatus
deriving DecidableEq, Repr

/-- The dedup lookup of add_internal: match on specification id and on the
ordered molecule-id array.  A record with no initial-chain rows (modelled as
an empty molecule list) is absent from the CTE because of the inner join, so
it can never match. -/
def findExistingNEB (tbl : List NEBRecordRow) (spec_id : Nat)
    (mol_ids : List Nat) : Option Nat :=
  (tbl.find? (fun r =>
    decide (r.molecule_ids ≠ [] ∧ r.specification_id = spec_id ∧
            r.molecule_ids = mol_ids))).map (·.id)

/-- A fresh (not yet used) record id, as the database sequence provides. -/
def freshRecordId (tbl : List NEBRecordRow) : Nat :=
  (tbl.map (·.id)).foldr max 0 + 1

/-- The loop body of NEBRecordSocket.add_internal over the input chains:
return the existing id, or insert a new service record in `waiting` status
with the chain attached, accumulating inserted_idx / existing_idx by input
position. -/
def add_internal_go (spec_id : Nat) :
    List (List Nat) → Nat → List NEBRecordRow →
    InsertMeta × List Nat × List NEBRecordRow
  | [], _, tbl => ({ inserted_idx := [], existing_idx := [] }, [], tbl)
  | mol_ids :: rest, idx, tbl =>
    match findExistingNEB tbl spec_id mol_ids with
    | some rid =>
      let r := add_internal_go spec_id rest (idx + 1) tbl
      ({ r.1 with existing_idx := idx :: r.1.existing_idx }, rid :: r.2.1, r.2.2)
    | none =>
      let newId := freshRecordId tbl
      let tbl' := tbl ++ [⟨newId, spec_id, mol_ids, RecordStatus.waiting⟩]
      let r := add_internal_go spec_id rest (idx + 1) tbl'
      ({ r.1 with inserted_idx := idx :: r.1.inserted_idx }, newId :: r.2.1, r.2.2)

/-- NEBRecordSocket.add_internal. -/
def add_internal (chains : List (List Nat)) (spec_id : Nat)
    (tbl : List NEBRecordRow) : InsertMeta × List Nat × List NEBRecordRow :=
  add_internal_go spec_id chains 0 tbl

/-! ## Record status machine: cancel/uncancel, soft-delete/undelete
(claims C3, C4)

The record_socket status-change code is not under src/ (only
test_record_status_changes_services.py is), so the operations are modelled
from the spec (§4.3, §4.7) with one point pinned by those tests: a record
whose saved status was `running` is restored to `waiting`, because its task
or claim no longer exists — test_record_client_cancel_running_service asserts
`waiting` after uncancelling a running service, and
test_record_client_softdelete_service asserts a running service "gets
undeleted to waiting". -/

/-- A record as the status-change operations see it: its status, the snapshot
attribute saved by cancel/soft-delete, and the remaining attributes
(untouched by these operations) represented by id, tag, priority and the
compute-history length. -/
structure StatusRecord where
  id : Nat
  status : RecordStatus
  saved_status : Option RecordStatus := none
  tag : String
  priority : Nat
  compute_history : List Nat
deriving DecidableEq, Repr

/-- Statuses from which a user cancel is legal (§4.3:
waiting/running/error → cancelled). -/
def cancellable : RecordStatus → Bool
  | .waiting | .running | .error => true
  | _ => false

/-- Modelled from the spec and pinned by the tests: restoring a saved status
snapshot; a record that was `running` has lost its task claim, so it comes
back as `waiting`. -/
def restoreStatus : RecordStatus → RecordStatus
  | .running => .waiting
  | s => s

/-- Modelled from the spec: user cancel — waiting/running/error → cancelled,
saving the previous status in the snapshot attribute; any other starting
status raises invalid-transition. -/
def cancelRecord (r : StatusRecord) : Except String StatusRecord :=
  if cancellable r.status then
    .ok { r with status := .cancelled, saved_status := some r.status }
  else .error "invalid-transition"

/-- Modelled from the spec: user uncancel — cancelled → restored snapshot. -/
def uncancelRecord (r : StatusRecord) : Except String StatusRecord :=
  if r.status = .cancelled then
    match r.saved_status with
    | some s => .ok { r with status := restoreStatus s, saved_status := none }
    | none => .ok { r with status := .waiting, saved_status := none }
  else .error "invalid-transition"

/-- Modelled from the spec: soft delete — any live state → deleted, saving
the previous status in the snapshot attribute. -/
def softdeleteRecord (r : StatusRecord) : Except String StatusRecord :=
  if r.status = .deleted then .error "invalid-transition"
  else .ok { r with status := .deleted, saved_status := some r.status }

/-- Modelled from the spec: undelete — deleted → restored snapshot. -/
def undeleteRecord (r : StatusRecord) : Except String StatusRecord :=
  if r.status = .deleted then
    match r.saved_status with
    | some s => .ok { r with status := restoreStatus s, saved_status := none }
    | none => .ok { r with status := .waiting, saved_status := none }
  else .error "invalid-transition"

/-! ## Upward status propagation from a child to its parent service
(claim C9)

The propagation code is not under src/; it is modelled from the status-change
tests (test_record_client_cancel_waiting_service_child,
test_record_client_invalidate_completed_service,
test_record_client_softdelete_service_child). -/

/-- A record row for the propagation model: status plus the service parent
that owns it as a dependency, if any. -/
structure FamilyRecord where
  id : Nat
  status : RecordStatus
  parent_id : Option Nat := none
deriving DecidableEq, Repr

/-- The parent/child record table. -/
abbrev FamilyTable := List FamilyRecord

/-- Set the status of the record with the given id. -/
def setStatus : FamilyTable → Nat → RecordStatus → FamilyTable
  | [], _, _ => []
  | r :: rest, rid, st =>
    (if r.id = rid then { r with status := st } else r) :: setStatus rest rid st

/-- The status of the record with the given id, if present. -/
def statusOf : FamilyTable → Nat → Option RecordStatus
  | [], _ => none
  | r :: rest, rid => if r.id = rid then some r.status else statusOf rest rid

/-- The parent service of the record with the given id, if any. -/
def parentOf : FamilyTable → Nat → Option Nat
  | [], _ => none
  | r :: rest, rid => if r.id = rid then r.parent_id else parentOf rest rid

/-- Modelled from the spec: a cancel/invalidate/soft-delete applied to a
child record propagates upward to the parent service record even when
with-children was not requested — the tests show the parent service ending
in the same status as the child. -/
def applyWithParent (t : FamilyTable) (rid : Nat) (st : RecordStatus) :
    FamilyTable :=
  let t1 := setStatus t rid st
  match parentOf t rid with
  | some p => setStatus t1 p st
  | none => t1

/-- Cancel a child record (propagates to the parent service). -/
def cancelChild (t : FamilyTable) (rid : Nat) : FamilyTable :=
  applyWithParent t rid .cancelled

/-- Invalidate a child record (propagates to the parent service). -/
def invalidateChild (t : FamilyTable) (rid : Nat) : FamilyTable :=
  applyWithParent t rid .invalid

/-- Soft-delete a child record (propagates to the parent service). -/
def softdeleteChild (t : FamilyTable) (rid : Nat) : FamilyTable :=
  applyWithParent t rid .deleted

/-- Modelled from the spec: uninvalidate restores the one record only — it
does not touch the parent service
(test_record_client_invalidate_completed_service asserts the parent stays
invalid after one child is uninvalidated). -/
def uninvalidateChild (t : FamilyTable) (rid : Nat) : FamilyTable :=
  setStatus t rid .complete

/-! ## Service spawn step (claim C5)

Embedded from NEBRecordSocket.submit_singlepoints and submit_optimizations.
The child ids are the list returned by the singlepoint/optimization add call
(created there with dedup); the model takes that list as input. -/

/-- A service dependency row (ServiceDependencyORM): child record id plus the
extras map, which the NEB driver always sets to {position: k}. -/
structure ServiceDep where
  record_id : Nat
  position : Nat
deriving DecidableEq, Repr

/-- An NEB singlepoint history row (NEBSinglepointsORM). -/
structure NEBSinglepointRow where
  singlepoint_id : Nat
  chain_iteration : Nat
  position : Nat
deriving DecidableEq, Repr

/-- An NEB optimization history row (NEBOptimizationsORM). -/
structure NEBOptRow where
  optimization_id : Nat
  position : Nat
  ts : Bool
deriving DecidableEq, Repr

/-- The slice of the service queue row and its record that the spawn step
touches. -/
structure SpawnState where
  record_status : RecordStatus
  dependencies : List ServiceDep
  singlepoints : List NEBSinglepointRow
  optimizations : List NEBOptRow
deriving DecidableEq, Repr

/-- The enumerate loop of submit_singlepoints: append one dependency and one
history row per child id, positions counting up. -/
def appendSinglepointDeps (iteration : Nat) :
    Nat → List Nat → SpawnState → SpawnState
  | _, [], svc => svc
  | pos, sp_id :: rest, svc =>
    appendSinglepointDeps iteration (pos + 1) rest
      { svc with
        dependencies := svc.dependencies ++ [⟨sp_id, pos⟩]
        singlepoints := svc.singlepoints ++ [⟨sp_id, iteration, pos⟩] }

/-- NEBRecordSocket.submit_singlepoints: delete all existing entries in the
dependency list, then append one dependency per child singlepoint id with
extras {position: k}, recording each in the NEB singlepoint history with the
current chain iteration. -/
def submit_singlepoints (iteration : Nat) (sp_ids : List Nat)
    (svc : SpawnState) : SpawnState :=
  appendSinglepointDeps iteration 0 sp_ids { svc with dependencies := [] }

/-- The enumerate loop of submit_optimizations. -/
def appendOptDeps (ts : Bool) : Nat → List Nat → SpawnState → SpawnState
  | _, [], svc => svc
  | pos, opt_id :: rest, svc =>
    appendOptDeps ts (pos + 1) rest
      { svc with
        dependencies := svc.dependencies ++ [⟨opt_id, pos⟩]
        optimizations := svc.optimizations ++ [⟨opt_id, pos, ts⟩] }

/-- NEBRecordSocket.submit_optimizations: delete all existing entries in the
dependency list, then append one dependency per child optimization id. -/
def submit_optimizations (ts : Bool) (opt_ids : List Nat)
    (svc : SpawnState) : SpawnState :=
  appendOptDeps ts 0 opt_ids { svc with dependencies := [] }

/-! ## Transition-state selection (claim C6)

Embedded from NEBRecordSocket.get_neb_result: the query orders the
singlepoints of the NEB record by chain_iteration descending, then by the
return_energy property descending, and takes the first molecule. -/

/-- A singlepoint attached to an NEB record as the TS query joins it: its
chain iteration, its return_energy property and its molecule. -/
structure NEBSinglepointResult where
  chain_iteration : Nat
  return_energy : ℚ
  molecule_id : Nat
deriving DecidableEq, Repr

/-- The ORDER BY of get_neb_result: s sorts strictly before r... precisely,
`tsLater r s` holds when s has a later chain iteration than r, or the same
iteration and strictly higher energy. -/
def tsLater (r s : NEBSinglepointResult) : Bool :=
  decide (r.chain_iteration < s.chain_iteration ∨
    (r.chain_iteration = s.chain_iteration ∧
      r.return_energy < s.return_energy))

/-- Scan for the first row of the descending (iteration, energy) order. -/
def pickTS (x : NEBSinglepointResult) (l : List NEBSinglepointResult) :
    NEBSinglepointResult :=
  l.foldl (fun best s => if tsLater best s then s else best) x

/-- NEBRecordSocket.get_neb_result: the molecule of the first singlepoint in
the descending (chain_iteration, return_energy) order; missing-data when the
record has no singlepoints. -/
def get_neb_result (sps : List NEBSinglepointResult) : Except String Nat :=
  match sps with
  | [] => .error "The final guessed transition state can't be found"
  | x :: rest => .ok (pickTS x rest).molecule_id

/-! ## Dataset composer (claims C7, C8)

BaseDatasetSocket.add and BaseDatasetSocket.submit are embedded from
src/qcfractal/components/datasets/sockets.py.  The kind-specific _submit body
is not under src/ (only its abstract declaration raising NotImplementedError
is), so it is modelled from the spec: for each (entry, specification) pair of
the cartesian product, ensure a record item exists, creating records through
the dedup-aware record add. -/

/-- A dataset row (BaseDatasetORM): id, kind tag, name, and the lowercased
name the uniqueness constraint uses. -/
structure DatasetRow where
  id : Nat
  dataset_type : String
  name : String
  lname : String
deriving DecidableEq, Repr

/-- A fresh dataset id. -/
def freshDatasetId (t : List DatasetRow) : Nat :=
  (t.map (·.id)).foldr max 0 + 1

/-- BaseDatasetSocket.add: raise already-exists when a dataset with the same
kind and the same lowercased name is present, otherwise insert a new row and
return its id. -/
def dataset_add (dtype name : String) (t : List DatasetRow) :
    Except String (Nat × List DatasetRow) :=
  match t.find? (fun d =>
      decide (d.dataset_type = dtype ∧ d.lname = lowerStr name)) with
  | some _ => .error "already-exists"
  | none =>
    .ok (freshDatasetId t,
      t ++ [⟨freshDatasetId t, dtype, name, lowerStr name⟩])

/-- A record row for the dataset model: id plus the dedup key
(molecule id, specification id). -/
structure DSRecordRow where
  id : Nat
  molecule_id : Nat
  specification_id : Nat
deriving DecidableEq, Repr

/-- A dataset record item (SinglepointDatasetRecordItemORM): entry name,
specification name, record id. -/
structure RecordItemRow where
  entry_name : String
  specification_name : String
  record_id : Nat
deriving DecidableEq, Repr

/-- A dataset entry (name and its molecule). -/
structure EntryRow where
  name : String
  molecule_id : Nat
deriving DecidableEq, Repr

/-- A dataset specification binding (name and the global spec id). -/
structure SpecNameRow where
  name : String
  specification_id : Nat
deriving DecidableEq, Repr

/-- The state dataset submit works on: the record table and this dataset's
record items. -/
structure SubmitState where
  records : List DSRecordRow
  items : List RecordItemRow
deriving DecidableEq, Repr

/-- Record create with dedup for the dataset path: return an existing record
with the same (molecule, specification) key or insert a fresh one. -/
def addDSRecord (st : SubmitState) (mol spec : Nat) : Nat × SubmitState :=
  match st.records.find? (fun r =>
      decide (r.molecule_id = mol ∧ r.specification_id = spec)) with
  | some r => (r.id, st)
  | none =>
    let i := (st.records.map (·.id)).foldr max 0 + 1
    (i, { st with records := st.records ++ [⟨i, mol, spec⟩] })

/-- Is a record item already present for this (entry, spec) pair? -/
def hasItem (st : SubmitState) (en sn : String) : Bool :=
  st.items.any (fun it =>
    decide (it.entry_name = en ∧ it.specification_name = sn))

/-- Modelled from the spec: the kind-specific _submit body for one
(entry, specification) pair — pairs already present in the record-item table
are skipped, otherwise the record is created (with dedup) and the item
inserted. -/
def submitPair (e : EntryRow) (s : SpecNameRow) (st : SubmitState) :
    SubmitState :=
  if hasItem st e.name s.name then st
  else
    let r := addDSRecord st e.molecule_id s.specification_id
    { r.2 with items := r.2.items ++ [⟨e.name, s.name, r.1⟩] }

/-- Submit one entry against every selected specification. -/
def submitEntry (e : EntryRow) : List SpecNameRow → SubmitState → SubmitState
  | [], st => st
  | s :: rest, st => submitEntry e rest (submitPair e s st)

/-- BaseDatasetSocket.submit over the selected entries × specifications. -/
def dataset_submit : List EntryRow → List SpecNameRow → SubmitState → SubmitState
  | [], _, st => st
  | e :: rest, specs, st => dataset_submit rest specs (submitEntry e specs st)

/-! ## NEB add: chain admission and image selection (claim C10) -/

/-- Round half to even, as Python round does on the values numpy linspace
produces (the floating-point values are modelled as exact rationals). -/
def pyRound (q : ℚ) : ℤ :=
  if q - ⌊q⌋ < 1 / 2 then ⌊q⌋
  else if 1 / 2 < q - ⌊q⌋ then ⌊q⌋ + 1
  else if ⌊q⌋ % 2 = 0 then ⌊q⌋ else ⌊q⌋ + 1

/-- np.linspace(0, n - 1, images): images evenly spaced points from 0 to
n - 1 inclusive (one point is the start alone; zero points is empty). -/
def linspaceIdx (n images : Nat) : List ℚ :=
  if images = 0 then []
  else if images = 1 then [0]
  else (List.range images).map
    (fun (i : Nat) => (i : ℚ) * ((n : ℚ) - 1) / ((images : ℚ) - 1))

/-- The frame indices NEBRecordSocket.add selects from a chain of n frames. -/
def selectedIdx (n images : Nat) : List ℤ :=
  (linspaceIdx n images).map pyRound

/-- Select the frames of a chain at the linspace-rounded indices. -/
def selectChain (images : Nat) (chain : List Nat) : List Nat :=
  (selectedIdx chain.length images).map (fun i => chain.getD i.toNat 0)

/-- The per-chain loop of NEBRecordSocket.add: reject a chain with fewer
frames than `images`, otherwise select its frames.  (Molecule ids stand for
the frames; molecules.add_mixed maps each frame to its id.) -/
def neb_select_chains (images : Nat) :
    List (List Nat) → Except String (List (List Nat))
  | [] => .ok []
  | c :: rest =>
    if c.length < images then
      .error "number of images for NEB can not exceed the number of input frames"
    else
      match neb_select_chains images rest with
      | .error e => .error e
      | .ok rs => .ok (selectChain images c :: rs)

/-- NEBRecordSocket.add: select the frames of every chain, then create the
records through add_internal; a short chain aborts the call with error
metadata and an empty id list, leaving the record table untouched. -/
def neb_add (images : Nat) (chains : List (List Nat)) (spec_id : Nat)
    (tbl : List NEBRecordRow) : InsertMeta × List Nat × List NEBRecordRow :=
  match neb_select_chains images chains with
  | .error e =>
    ({ inserted_idx := [], existing_idx := [], error_description := some e },
      [], tbl)
  | .ok sel => add_internal sel spec_id tbl

theorem lookup_after_sp_add (s : QCSpec) (t : QCSpecTable) :
    lookupQCSpec (sp_add_specification s t).2.2 (canonQCSpec s) =
      some (sp_add_specification s t).2.1 := by
  unfold sp_add_specification
  cases h : lookupQCSpec t (canonQCSpec s) with
  | some i => simp [h]
  | none =>
    simp only [h]
    unfold lookupQCSpec at h ⊢
    rw [Option.map_eq_none'] at h
    rw [List.find?_append, h]
    simp [List.find?]

theorem sp_add_eq_of_lookup_some (s : QCSpec) (t : QCSpecTable) (i : Nat)
    (h : lookupQCSpec t (canonQCSpec s) = some i) :
    sp_add_specification s t = ({ inserted_idx := [], existing_idx := [0] }, i, t) := by
  simp only [sp_add_specification]
  rw [h]

theorem sp_add_after_sp_add (s₁ s₂ : QCSpec) (t : QCSpecTable)
    (h : canonQCSpec s₁ = canonQCSpec s₂) :
    sp_add_specification s₂ (sp_add_specification s₁ t).2.2 =
      ({ inserted_idx := [], existing_idx := [0] },
        (sp_add_specification s₁ t).2.1, (sp_add_specification s₁ t).2.2) := by
  have hl := lookup_after_sp_add s₁ t
  rw [h] at hl
  exact sp_add_eq_of_lookup_some s₂ _ _ hl

theorem lookup_after_neb_add (s : NEBSpec) (st : SpecTables) :
    lookupNEBSpec (neb_add_specification s st).2.2.neb (lowerStr s.program) s.keywords
      (sp_add_specification s.singlepoint_specification st.qc).2.1 =
      some (neb_add_specification s st).2.1 := by
  simp only [neb_add_specification]
  cases h : lookupNEBSpec st.neb (lowerStr s.program) s.keywords
      (sp_add_specification s.singlepoint_specification st.qc).2.1 with
  | some i => simp [h]
  | none =>
    simp only [h]
    unfold lookupNEBSpec at h ⊢
    rw [Option.map_eq_none'] at h
    rw [List.find?_append, h]
    simp [List.find?]

theorem neb_add_qc (s : NEBSpec) (st : SpecTables) :
    (neb_add_specification s st).2.2.qc =
      (sp_add_specification s.singlepoint_specification st.qc).2.2 := by
  simp only [neb_add_specification]
  cases lookupNEBSpec st.neb (lowerStr s.program) s.keywords
      (sp_add_specification s.singlepoint_specification st.qc).2.1 <;> rfl

theorem neb_add_eq_of_lookup_some (s : NEBSpec) (st : SpecTables) (i : Nat)
    (h : lookupNEBSpec st.neb (lowerStr s.program) s.keywords
      (sp_add_specification s.singlepoint_specification st.qc).2.1 = some i)
    (hq : (sp_add_specification s.singlepoint_specification st.qc).2.2 = st.qc) :
    neb_add_specification s st =
      ({ inserted_idx := [], existing_idx := [0] }, i, st) := by
  simp only [neb_add_specification]
  rw [h, hq]

/-- C1: two calls to add-specification whose inputs are content-equal under
the canonicalisation rules (program/method/basis case-insensitive,
default-valued sub-fields elided, null and empty basis identified) return the
same specification id; the second call reports the specification as existing
(existing_idx = [0]) rather than inserted, and leaves the tables unchanged. -/
theorem spec_dedup_second_add_existing (s₁ s₂ : NEBSpec) (st : SpecTables)
    (h : canonNEBSpec s₁ = canonNEBSpec s₂) :
    neb_add_specification s₂ (neb_add_specification s₁ st).2.2 =
      ({ inserted_idx := [], existing_idx := [0] },
        (neb_add_specification s₁ st).2.1,
        (neb_add_specification s₁ st).2.2) := by
  have hprog : lowerStr s₁.program = lowerStr s₂.program := by
    have hc := congrArg NEBSpec.program h
    simpa [canonNEBSpec] using hc
  have hkw : s₁.keywords = s₂.keywords := by
    have hc := congrArg NEBSpec.keywords h
    simpa [canonNEBSpec] using hc
  have hsp : canonQCSpec s₁.singlepoint_specification =
      canonQCSpec s₂.singlepoint_specification := by
    have hc := congrArg NEBSpec.singlepoint_specification h
    simpa [canonNEBSpec] using hc
  have hsp2 := sp_add_after_sp_add s₁.singlepoint_specification
    s₂.singlepoint_specification st.qc hsp
  have hq : (sp_add_specification s₂.singlepoint_specification
      (neb_add_specification s₁ st).2.2.qc).2.2 =
      (neb_add_specification s₁ st).2.2.qc := by
    rw [neb_add_qc s₁ st, hsp2]
  have hid : (sp_add_specification s₂.singlepoint_specification
      (neb_add_specification s₁ st).2.2.qc).2.1 =
      (sp_add_specification s₁.singlepoint_specification st.qc).2.1 := by
    rw [neb_add_qc s₁ st, hsp2]
  have hlook : lookupNEBSpec (neb_add_specification s₁ st).2.2.neb
      (lowerStr s₂.program) s₂.keywords
      (sp_add_specification s₂.singlepoint_specification
        (neb_add_specification s₁ st).2.2.qc).2.1 =
      some (neb_add_specification s₁ st).2.1 := by
    rw [hid, ← hprog, ← hkw]
    exact lookup_after_neb_add s₁ st
  exact neb_add_eq_of_lookup_some s₂ (neb_add_specification s₁ st).2.2 _ hlook hq

/-- Witness for the specification dedup law: the case-insensitivity scenario
of test_singlepointrecord_socket_add_specification_same_1, lifted to an NEB
specification, run from the empty state. -/
theorem spec_dedup_second_add_existing_witness :
    (canonNEBSpec ⟨"geometric", [("images", "11")],
        ⟨"prog1", "energy", "b3lyp", some "6-31G*", [("k", "value")], []⟩⟩ =
      canonNEBSpec ⟨"Geometric", [("images", "11")],
        ⟨"Prog1", "energy", "b3LYP", some "6-31g*", [("k", "value")], []⟩⟩) ∧
    neb_add_specification
        ⟨"Geometric", [("images", "11")],
          ⟨"Prog1", "energy", "b3LYP", some "6-31g*", [("k", "value")], []⟩⟩
        (neb_add_specification
          ⟨"geometric", [("images", "11")],
            ⟨"prog1", "energy", "b3lyp", some "6-31G*", [("k", "value")], []⟩⟩
          ⟨[], []⟩).2.2 =
      ({ inserted_idx := [], existing_idx := [0] },
        (neb_add_specification
          ⟨"geometric", [("images", "11")],
            ⟨"prog1", "energy", "b3lyp", some "6-31G*", [("k", "value")], []⟩⟩
          ⟨[], []⟩).2.1,
        (neb_add_specification
          ⟨"geometric", [("images", "11")],
            ⟨"prog1", "energy", "b3lyp", some "6-31G*", [("k", "value")], []⟩⟩
          ⟨[], []⟩).2.2) :=
  ⟨by decide, spec_dedup_second_add_existing _ _ _ (by decide)⟩

/-- C2: a record create is deduplicated against an existing record iff its
specification id and its ordered molecule-id list match that record (the kind
matches automatically: each record kind keeps its own table and the lookup
runs over the NEB table alone).  In the dedup case the existing record's id
is returned and reported under existing_idx and no row is inserted; otherwise
a fresh waiting row is inserted and reported under inserted_idx. -/
theorem record_dedup_on_create (tbl : List NEBRecordRow) (spec_id : Nat)
    (mol_ids : List Nat) :
    (∀ rid, findExistingNEB tbl spec_id mol_ids = some rid →
      add_internal [mol_ids] spec_id tbl =
        ({ inserted_idx := [], existing_idx := [0] }, [rid], tbl)) ∧
    (findExistingNEB tbl spec_id mol_ids = none →
      add_internal [mol_ids] spec_id tbl =
        ({ inserted_idx := [0], existing_idx := [] }, [freshRecordId tbl],
          tbl ++ [⟨freshRecordId tbl, spec_id, mol_ids, RecordStatus.waiting⟩])) ∧
    ((findExistingNEB tbl spec_id mol_ids).isSome ↔
      ∃ r ∈ tbl, r.molecule_ids ≠ [] ∧ r.specification_id = spec_id ∧
        r.molecule_ids = mol_ids) := by
  refine ⟨?_, ?_, ?_⟩
  · intro rid h
    simp [add_internal, add_internal_go, h]
  · intro h
    simp [add_internal, add_internal_go, h]
  · simp [findExistingNEB, List.find?_isSome]

/-- Witness for the record-dedup law on a one-row table: chain [4, 5] with
specification 3 dedups against the stored record 7; chain [4, 6] does not and
is inserted as record 8. -/
theorem record_dedup_on_create_witness :
    add_internal [[4, 5]] 3 [⟨7, 3, [4, 5], RecordStatus.complete⟩] =
      ({ inserted_idx := [], existing_idx := [0] }, [7],
        [⟨7, 3, [4, 5], RecordStatus.complete⟩]) ∧
    add_internal [[4, 6]] 3 [⟨7, 3, [4, 5], RecordStatus.complete⟩] =
      ({ inserted_idx := [0], existing_idx := [] }, [8],
        [⟨7, 3, [4, 5], RecordStatus.complete⟩,
          ⟨8, 3, [4, 6], RecordStatus.waiting⟩]) :=
  ⟨(record_dedup_on_create
      [⟨7, 3, [4, 5], RecordStatus.complete⟩] 3 [4, 5]).1 7 (by decide),
    by
      have := (record_dedup_on_create
        [⟨7, 3, [4, 5], RecordStatus.complete⟩] 3 [4, 6]).2.1 (by decide)
      simpa [freshRecordId] using this⟩

/-- C3 counterexample: a running record, cancelled and then uncancelled,
ends `waiting` rather than `running` — matching
test_record_client_cancel_running_service, which asserts `waiting` after the
uncancel of a running service. -/
theorem cancel_uncancel_running_counterexample :
    (cancelRecord ⟨1, .running, none, "t", 0, []⟩).bind uncancelRecord =
      .ok ⟨1, .waiting, none, "t", 0, []⟩ ∧
    RecordStatus.waiting ≠ RecordStatus.running := ⟨rfl, by decide⟩

/-- C3 (amended): cancel then uncancel restores the pre-cancel status when
it was `waiting` or `error`, restoring the whole record; a `running` record
comes back `waiting`.  The other attributes are unchanged in all cases. -/
theorem cancel_uncancel_roundtrip (r : StatusRecord) :
    ((r.status = .waiting ∨ r.status = .error) →
      (cancelRecord r).bind uncancelRecord =
        .ok { r with saved_status := none }) ∧
    (r.status = .running →
      (cancelRecord r).bind uncancelRecord =
        .ok { r with status := .waiting, saved_status := none }) := by
  obtain ⟨i, st, sv, tg, pr, hi⟩ := r
  cases st <;>
    simp [cancelRecord, uncancelRecord, cancellable, restoreStatus, Except.bind]

/-- Witness for the amended C3 round trip at a waiting and a running record. -/
theorem cancel_uncancel_roundtrip_witness :
    (cancelRecord ⟨1, .waiting, none, "t", 0, []⟩).bind uncancelRecord =
      .ok ⟨1, .waiting, none, "t", 0, []⟩ ∧
    (cancelRecord ⟨2, .error, some .waiting, "t", 0, [5]⟩).bind uncancelRecord =
      .ok ⟨2, .error, none, "t", 0, [5]⟩ :=
  ⟨(cancel_uncancel_roundtrip ⟨1, .waiting, none, "t", 0, []⟩).1 (Or.inl rfl),
    (cancel_uncancel_roundtrip ⟨2, .error, some .waiting, "t", 0, [5]⟩).1
      (Or.inr rfl)⟩

/-- C4 counterexample: a running record, soft-deleted and then undeleted,
ends `waiting` rather than `running` — matching
test_record_client_softdelete_service, which asserts a running service "gets
undeleted to waiting". -/
theorem softdelete_undelete_running_counterexample :
    (softdeleteRecord ⟨1, .running, none, "t", 0, []⟩).bind undeleteRecord =
      .ok ⟨1, .waiting, none, "t", 0, []⟩ ∧
    RecordStatus.waiting ≠ RecordStatus.running := ⟨rfl, by decide⟩

/-- C4 (amended): soft-delete then undelete restores exactly the saved
snapshot state for every live starting status except `running`, which is
restored to `waiting`; all other record attributes are unchanged. -/
theorem softdelete_undelete_roundtrip (r : StatusRecord) :
    ((r.status ≠ .running ∧ r.status ≠ .deleted) →
      (softdeleteRecord r).bind undeleteRecord =
        .ok { r with saved_status := none }) ∧
    (r.status = .running →
      (softdeleteRecord r).bind undeleteRecord =
        .ok { r with status := .waiting, saved_status := none }) := by
  obtain ⟨i, st, sv, tg, pr, hi⟩ := r
  cases st <;>
    simp [softdeleteRecord, undeleteRecord, restoreStatus, Except.bind]

/-- Witness for the amended C4 round trip at an error and a complete record. -/
theorem softdelete_undelete_roundtrip_witness :
    (softdeleteRecord ⟨1, .error, none, "t", 0, [3]⟩).bind undeleteRecord =
      .ok ⟨1, .error, none, "t", 0, [3]⟩ ∧
    (softdeleteRecord ⟨2, .complete, none, "u", 1, []⟩).bind undeleteRecord =
      .ok ⟨2, .complete, none, "u", 1, []⟩ :=
  ⟨(softdelete_undelete_roundtrip ⟨1, .error, none, "t", 0, [3]⟩).1
      ⟨by decide, by decide⟩,
    (softdelete_undelete_roundtrip ⟨2, .complete, none, "u", 1, []⟩).1
      ⟨by decide, by decide⟩⟩

theorem statusOf_setStatus_self (t : FamilyTable) (rid : Nat)
    (st : RecordStatus) (h : (statusOf t rid).isSome) :
    statusOf (setStatus t rid st) rid = some st := by
  induction t with
  | nil => simp [statusOf] at h
  | cons a l ih =>
    by_cases ha : a.id = rid
    · simp [statusOf, setStatus, ha]
    · have h' : (statusOf l rid).isSome := by
        simpa [statusOf, ha] using h
      simpa [statusOf, setStatus, ha] using ih h'

theorem statusOf_setStatus_other (t : FamilyTable) (rid q : Nat)
    (st : RecordStatus) (h : q ≠ rid) :
    statusOf (setStatus t rid st) q = statusOf t q := by
  induction t with
  | nil => rfl
  | cons a l ih =>
    by_cases ha : a.id = q
    · have har : ¬(a.id = rid) := fun hh => h (ha.symm.trans hh)
      simp [statusOf, setStatus, ha, har, h]
    · by_cases har : a.id = rid
      · have hrq : ¬(rid = q) := fun hh => h hh.symm
        simp [statusOf, setStatus, ha, har, hrq, ih]
      · simp [statusOf, setStatus, ha, har, ih]

theorem isSome_statusOf_setStatus (t : FamilyTable) (rid q : Nat)
    (st : RecordStatus) :
    (statusOf (setStatus t rid st) q).isSome = (statusOf t q).isSome := by
  induction t with
  | nil => rfl
  | cons a l ih =>
    by_cases hq : a.id = q
    · by_cases hr : a.id = rid
      · obtain rfl : q = rid := hq.symm.trans hr
        simp [statusOf, setStatus, hq]
      · have hqr : ¬(q = rid) := fun hh => hr (hq.trans hh)
        simp [statusOf, setStatus, hq, hr, hqr]
    · by_cases hr : a.id = rid
      · have hrq : ¬(rid = q) := fun hh => hq (hr.trans hh)
        simp [statusOf, setStatus, hq, hr, hrq, ih]
      · simp [statusOf, setStatus, hq, hr, ih]

/-- C9: cancelling, invalidating or soft-deleting a child record also puts
its parent service into the corresponding status, even though with-children
was not requested; conversely, uninvalidating a single child leaves the
parent's status untouched. -/
theorem child_status_propagates (t : FamilyTable) (c p : Nat)
    (hc : parentOf t c = some p) (hp : (statusOf t p).isSome) (hne : p ≠ c) :
    statusOf (cancelChild t c) p = some .cancelled ∧
    statusOf (invalidateChild t c) p = some .invalid ∧
    statusOf (softdeleteChild t c) p = some .deleted ∧
    statusOf (uninvalidateChild t c) p = statusOf t p := by
  have hgen : ∀ st : RecordStatus,
      statusOf (applyWithParent t c st) p = some st := by
    intro st
    unfold applyWithParent
    rw [hc]
    apply statusOf_setStatus_self
    rw [isSome_statusOf_setStatus]
    exact hp
  exact ⟨hgen _, hgen _, hgen _, statusOf_setStatus_other t c p .complete hne⟩

/-- Witness for the upward propagation on a two-row family: service record 1
(running) owns child record 2 (complete). -/
theorem child_status_propagates_witness :
    statusOf (cancelChild [⟨1, .running, none⟩, ⟨2, .complete, some 1⟩] 2) 1 =
      some .cancelled ∧
    statusOf (invalidateChild
      [⟨1, .running, none⟩, ⟨2, .complete, some 1⟩] 2) 1 = some .invalid ∧
    statusOf (softdeleteChild
      [⟨1, .running, none⟩, ⟨2, .complete, some 1⟩] 2) 1 = some .deleted ∧
    statusOf (uninvalidateChild
        [⟨1, .running, none⟩, ⟨2, .complete, some 1⟩] 2) 1 =
      statusOf [⟨1, .running, none⟩, ⟨2, .complete, some 1⟩] 1 :=
  child_status_propagates [⟨1, .running, none⟩, ⟨2, .complete, some 1⟩] 2 1
    (by decide) (by decide) (by decide)

theorem appendSinglepointDeps_spec (it : Nat) (ids : List Nat) :
    ∀ (pos : Nat) (svc : SpawnState),
    appendSinglepointDeps it pos ids svc =
      { svc with
        dependencies := svc.dependencies ++
          (List.enumFrom pos ids).map (fun q => ⟨q.2, q.1⟩)
        singlepoints := svc.singlepoints ++
          (List.enumFrom pos ids).map (fun q => ⟨q.2, it, q.1⟩) } := by
  induction ids with
  | nil => intro pos svc; simp [appendSinglepointDeps]
  | cons a l ih =>
    intro pos svc
    rw [appendSinglepointDeps, ih]
    simp [List.enumFrom]

theorem appendOptDeps_spec (ts : Bool) (ids : List Nat) :
    ∀ (pos : Nat) (svc : SpawnState),
    appendOptDeps ts pos ids svc =
      { svc with
        dependencies := svc.dependencies ++
          (List.enumFrom pos ids).map (fun q => ⟨q.2, q.1⟩)
        optimizations := svc.optimizations ++
          (List.enumFrom pos ids).map (fun q => ⟨q.2, q.1, ts⟩) } := by
  induction ids with
  | nil => intro pos svc; simp [appendOptDeps]
  | cons a l ih =>
    intro pos svc
    rw [appendOptDeps, ih]
    simp [List.enumFrom]

/-- C5: the spawn step (submit_singlepoints / submit_optimizations) first
clears the previous dependency list, then appends exactly one dependency per
spawned child id, in child order, each carrying the driver-chosen extras map
{position: k}; the matching history rows are appended, and the record status
(running while the service iterates) is untouched. -/
theorem spawn_clears_and_appends_dependencies (it : Nat) (ts : Bool)
    (ids : List Nat) (svc : SpawnState) :
    submit_singlepoints it ids svc =
      { svc with
        dependencies := ids.enum.map (fun q => ⟨q.2, q.1⟩)
        singlepoints := svc.singlepoints ++
          ids.enum.map (fun q => ⟨q.2, it, q.1⟩) } ∧
    submit_optimizations ts ids svc =
      { svc with
        dependencies := ids.enum.map (fun q => ⟨q.2, q.1⟩)
        optimizations := svc.optimizations ++
          ids.enum.map (fun q => ⟨q.2, q.1, ts⟩) } := by
  constructor
  · rw [submit_singlepoints, appendSinglepointDeps_spec]
    simp [List.enum]
  · rw [submit_optimizations, appendOptDeps_spec]
    simp [List.enum]

theorem tsLater_true_iff (r s : NEBSinglepointResult) :
    tsLater r s = true ↔
      r.chain_iteration < s.chain_iteration ∨
        (r.chain_iteration = s.chain_iteration ∧
          r.return_energy < s.return_energy) := by
  simp [tsLater]

theorem tsLater_false_iff (r s : NEBSinglepointResult) :
    tsLater r s = false ↔
      s.chain_iteration < r.chain_iteration ∨
        (s.chain_iteration = r.chain_iteration ∧
          s.return_energy ≤ r.return_energy) := by
  simp only [tsLater, decide_eq_false_iff_not]
  constructor
  · intro h
    push_neg at h
    obtain ⟨h1, h2⟩ := h
    rcases Nat.lt_or_eq_of_le h1 with hlt | heq
    · exact Or.inl hlt
    · exact Or.inr ⟨heq, h2 heq.symm⟩
  · rintro (hlt | ⟨heq, hle⟩) <;> rintro (hlt2 | ⟨heq2, hlt3⟩)
    · omega
    · omega
    · omega
    · exact absurd hlt3 (not_lt_of_le hle)

theorem tsLater_false_trans (p x a : NEBSinglepointResult)
    (h1 : tsLater p x = false) (h2 : tsLater x a = false) :
    tsLater p a = false := by
  rw [tsLater_false_iff] at h1 h2 ⊢
  rcases h1 with h | ⟨e1, le1⟩ <;> rcases h2 with g | ⟨e2, le2⟩
  · exact Or.inl (lt_trans g h)
  · exact Or.inl (e2 ▸ h)
  · exact Or.inl (e1 ▸ g)
  · exact Or.inr ⟨e2.trans e1, le2.trans le1⟩

theorem tsLater_false_of_lt_le (p x a : NEBSinglepointResult)
    (h1 : tsLater x a = true) (h2 : tsLater p a = false) :
    tsLater p x = false := by
  rw [tsLater_true_iff] at h1
  rw [tsLater_false_iff] at h2 ⊢
  rcases h1 with h | ⟨e1, lt1⟩ <;> rcases h2 with g | ⟨e2, le2⟩
  · exact Or.inl (lt_trans h g)
  · exact Or.inl (e2 ▸ h)
  · exact Or.inl (e1 ▸ g)
  · exact Or.inr ⟨e1.trans e2, le_of_lt (lt_of_lt_of_le lt1 le2)⟩

theorem pickTS_cons (x a : NEBSinglepointResult)
    (l : List NEBSinglepointResult) :
    pickTS x (a :: l) = pickTS (if tsLater x a then a else x) l := rfl

theorem pickTS_mem (x : NEBSinglepointResult)
    (l : List NEBSinglepointResult) : pickTS x l ∈ x :: l := by
  induction l generalizing x with
  | nil => simp [pickTS]
  | cons a l ih =>
    rw [pickTS_cons]
    rcases List.mem_cons.mp (ih (if tsLater x a then a else x)) with h | h
    · by_cases hxa : tsLater x a
      · rw [h, if_pos hxa]; exact List.mem_cons_of_mem _ (List.mem_cons_self _ _)
      · rw [h, if_neg hxa]; exact List.mem_cons_self _ _
    · exact List.mem_cons_of_mem _ (List.mem_cons_of_mem _ h)

theorem pickTS_not_later (x : NEBSinglepointResult)
    (l : List NEBSinglepointResult) :
    ∀ s ∈ x :: l, tsLater (pickTS x l) s = false := by
  induction l generalizing x with
  | nil =>
    intro s hs
    rw [List.mem_singleton] at hs
    subst hs
    simp [pickTS, tsLater]
  | cons a l ih =>
    intro s hs
    rw [List.mem_cons] at hs
    rw [pickTS_cons]
    by_cases hxa : tsLater x a
    · rw [if_pos hxa]
      rcases hs with rfl | hs
      · exact tsLater_false_of_lt_le _ _ _ hxa
          (ih a _ (List.mem_cons_self _ _))
      · exact ih a _ hs
    · rw [if_neg hxa]
      have hxa' : tsLater x a = false := by simpa using hxa
      rcases hs with rfl | hs
      · exact ih s _ (List.mem_cons_self _ _)
      rw [List.mem_cons] at hs
      rcases hs with rfl | hs
      · exact tsLater_false_trans _ _ _ (ih x _ (List.mem_cons_self _ _)) hxa'
      · exact ih x _ (List.mem_cons_of_mem _ hs)

/-- C6: get_neb_result returns the molecule of one of the recorded
singlepoints of the NEB record, namely one from the latest chain iteration
and, within that iteration, with the highest return_energy; on a record with
no recorded singlepoints it fails with the missing-data error. -/
theorem ts_selection (x : NEBSinglepointResult)
    (rest : List NEBSinglepointResult) :
    get_neb_result [] =
      .error "The final guessed transition state can't be found" ∧
    ∃ r, r ∈ x :: rest ∧ get_neb_result (x :: rest) = .ok r.molecule_id ∧
      ∀ s ∈ x :: rest, s.chain_iteration ≤ r.chain_iteration ∧
        (s.chain_iteration = r.chain_iteration →
          s.return_energy ≤ r.return_energy) := by
  refine ⟨rfl, pickTS x rest, pickTS_mem x rest, rfl, ?_⟩
  intro s hs
  have h := pickTS_not_later x rest s hs
  rw [tsLater_false_iff] at h
  rcases h with hlt | ⟨heq, hle⟩
  · exact ⟨Nat.le_of_lt hlt, fun hh => absurd (hh ▸ hlt) (lt_irrefl _)⟩
  · exact ⟨Nat.le_of_eq heq, fun _ => hle⟩

theorem addDSRecord_items (st : SubmitState) (mol spec : Nat) :
    (addDSRecord st mol spec).2.items = st.items := by
  unfold addDSRecord
  cases st.records.find? (fun r =>
    decide (r.molecule_id = mol ∧ r.specification_id = spec)) <;> rfl

theorem hasItem_submitPair (e : EntryRow) (s : SpecNameRow) (st : SubmitState)
    (en sn : String) (h : hasItem st en sn = true) :
    hasItem (submitPair e s st) en sn = true := by
  unfold submitPair
  by_cases hp : hasItem st e.name s.name
  · rw [if_pos hp]; exact h
  · rw [if_neg hp]
    unfold hasItem at h ⊢
    simp only [addDSRecord_items, List.any_append, h, Bool.true_or]

theorem hasItem_submitPair_self (e : EntryRow) (s : SpecNameRow)
    (st : SubmitState) :
    hasItem (submitPair e s st) e.name s.name = true := by
  unfold submitPair
  by_cases hp : hasItem st e.name s.name
  · rw [if_pos hp]; exact hp
  · rw [if_neg hp]
    simp [hasItem, addDSRecord_items, List.any_append]

theorem hasItem_submitEntry (e : EntryRow) :
    ∀ (specs : List SpecNameRow) (st : SubmitState) (en sn : String),
      hasItem st en sn = true →
      hasItem (submitEntry e specs st) en sn = true := by
  intro specs
  induction specs with
  | nil => intro st en sn h; exact h
  | cons s rest ih =>
    intro st en sn h
    exact ih _ en sn (hasItem_submitPair e s st en sn h)

theorem hasItem_submitEntry_self (e : EntryRow) (s : SpecNameRow) :
    ∀ (specs : List SpecNameRow) (st : SubmitState), s ∈ specs →
      hasItem (submitEntry e specs st) e.name s.name = true := by
  intro specs
  induction specs with
  | nil => intro st hs; cases hs
  | cons a rest ih =>
    intro st hs
    rw [List.mem_cons] at hs
    rcases hs with rfl | hs
    · exact hasItem_submitEntry e rest _ _ _ (hasItem_submitPair_self e s st)
    · exact ih _ hs

theorem hasItem_dataset_submit (specs : List SpecNameRow) (en sn : String) :
    ∀ (entries : List EntryRow) (st : SubmitState),
      hasItem st en sn = true →
      hasItem (dataset_submit entries specs st) en sn = true := by
  intro entries
  induction entries with
  | nil => intro st h; exact h
  | cons e rest ih =>
    intro st h
    exact ih _ (hasItem_submitEntry e specs st en sn h)

theorem hasItem_dataset_submit_all (specs : List SpecNameRow) :
    ∀ (entries : List EntryRow) (st : SubmitState)
      (e : EntryRow) (s : SpecNameRow), e ∈ entries → s ∈ specs →
      hasItem (dataset_submit entries specs st) e.name s.name = true := by
  intro entries
  induction entries with
  | nil => intro st e s he _; cases he
  | cons a rest ih =>
    intro st e s he hs
    rw [List.mem_cons] at he
    rcases he with rfl | he
    · exact hasItem_dataset_submit specs e.name s.name rest _
        (hasItem_submitEntry_self e s specs _ hs)
    · exact ih _ e s he hs

theorem submitPair_of_hasItem (e : EntryRow) (s : SpecNameRow)
    (st : SubmitState) (h : hasItem st e.name s.name = true) :
    submitPair e s st = st := by
  unfold submitPair; rw [if_pos h]

theorem submitEntry_of_all (e : EntryRow) :
    ∀ (specs : List SpecNameRow) (st : SubmitState),
      (∀ s ∈ specs, hasItem st e.name s.name = true) →
      submitEntry e specs st = st := by
  intro specs
  induction specs with
  | nil => intro st _; rfl
  | cons a rest ih =>
    intro st h
    have h1 := submitPair_of_hasItem e a st (h a (List.mem_cons_self _ _))
    calc submitEntry e (a :: rest) st
        = submitEntry e rest (submitPair e a st) := rfl
      _ = submitEntry e rest st := by rw [h1]
      _ = st := ih st (fun s hs => h s (List.mem_cons_of_mem _ hs))

theorem dataset_submit_of_all :
    ∀ (entries : List EntryRow) (specs : List SpecNameRow) (st : SubmitState),
      (∀ e ∈ entries, ∀ s ∈ specs, hasItem st e.name s.name = true) →
      dataset_submit entries specs st = st := by
  intro entries
  induction entries with
  | nil => intro specs st _; rfl
  | cons a rest ih =>
    intro specs st h
    have h1 := submitEntry_of_all a specs st (h a (List.mem_cons_self _ _))
    calc dataset_submit (a :: rest) specs st
        = dataset_submit rest specs (submitEntry a specs st) := rfl
      _ = dataset_submit rest specs st := by rw [h1]
      _ = st := ih specs st (fun d hd s hs => h d (List.mem_cons_of_mem _ hd) s hs)

/-- C7: submitting the same entries × specifications selection twice is
idempotent: after the first submit every (entry, spec) pair of the product
has a record item, so the second call skips every pair, creating no records
and no record items — the whole state is unchanged. -/
theorem dataset_submit_idempotent (entries : List EntryRow)
    (specs : List SpecNameRow) (st : SubmitState) :
    dataset_submit entries specs (dataset_submit entries specs st) =
      dataset_submit entries specs st :=
  dataset_submit_of_all entries specs _
    (fun e he s hs => hasItem_dataset_submit_all specs entries st e s he hs)

/-- C8: dataset add raises already-exists exactly when a dataset of the same
kind whose lowercased name matches already exists, inserting nothing (the
error carries no new state); otherwise a fresh row is inserted and its new
id returned. -/
theorem dataset_add_unique (dtype name : String) (t : List DatasetRow) :
    ((∃ d ∈ t, d.dataset_type = dtype ∧ d.lname = lowerStr name) →
      dataset_add dtype name t = .error "already-exists") ∧
    ((¬∃ d ∈ t, d.dataset_type = dtype ∧ d.lname = lowerStr name) →
      dataset_add dtype name t =
        .ok (freshDatasetId t,
          t ++ [⟨freshDatasetId t, dtype, name, lowerStr name⟩])) := by
  constructor
  · intro h
    obtain ⟨d, hd, h1, h2⟩ := h
    have hsome : (t.find? (fun d =>
        decide (d.dataset_type = dtype ∧ d.lname = lowerStr name))).isSome := by
      rw [List.find?_isSome]
      exact ⟨d, hd, by simp [h1, h2]⟩
    obtain ⟨d', hd'⟩ := Option.isSome_iff_exists.mp hsome
    unfold dataset_add
    rw [hd']
  · intro h
    have hnone : t.find? (fun d =>
        decide (d.dataset_type = dtype ∧ d.lname = lowerStr name)) = none := by
      rw [List.find?_eq_none]
      intro d hd hp
      exact h ⟨d, hd, by simpa using hp⟩
    unfold dataset_add
    rw [hnone]

/-- Witness for dataset-add uniqueness: "DS1" clashes case-insensitively
with the stored singlepoint dataset "ds1", while the same name under another
kind is accepted with a fresh id. -/
theorem dataset_add_unique_witness :
    dataset_add "singlepoint" "DS1" [⟨1, "singlepoint", "ds1", "ds1"⟩] =
      .error "already-exists" ∧
    dataset_add "optimization" "DS1" [⟨1, "singlepoint", "ds1", "ds1"⟩] =
      .ok (2, [⟨1, "singlepoint", "ds1", "ds1"⟩,
        ⟨2, "optimization", "DS1", "ds1"⟩]) :=
  ⟨(dataset_add_unique "singlepoint" "DS1" [⟨1, "singlepoint", "ds1", "ds1"⟩]).1
      ⟨⟨1, "singlepoint", "ds1", "ds1"⟩, by decide, by decide, by decide⟩,
    by
      have := (dataset_add_unique "optimization" "DS1"
        [⟨1, "singlepoint", "ds1", "ds1"⟩]).2 (by decide)
      simpa [freshDatasetId] using this⟩

theorem pyRound_intCast (k : ℤ) : pyRound (k : ℚ) = k := by
  unfold pyRound
  rw [Int.floor_intCast, sub_self]
  norm_num

theorem pyRound_zero : pyRound 0 = 0 := by
  have h := pyRound_intCast 0
  simpa using h

theorem pyRound_nonneg (q : ℚ) (h : 0 ≤ q) : 0 ≤ pyRound q := by
  have h0 : (0 : ℤ) ≤ ⌊q⌋ := Int.floor_nonneg.mpr h
  unfold pyRound
  split_ifs <;> omega

theorem pyRound_le (q : ℚ) (k : ℤ) (h : q ≤ (k : ℚ)) : pyRound q ≤ k := by
  have hf : ⌊q⌋ ≤ k := by
    have h1 := Int.floor_le_floor h
    rwa [Int.floor_intCast] at h1
  have hfl : (⌊q⌋ : ℚ) ≤ q := Int.floor_le q
  unfold pyRound
  split_ifs with h1 h2 h3
  · exact hf
  · by_contra hcon
    push_neg at hcon
    have hk : k ≤ ⌊q⌋ := by omega
    have hk' : (k : ℚ) ≤ (⌊q⌋ : ℚ) := by exact_mod_cast hk
    have hge : 1 / 2 ≤ q - ⌊q⌋ := le_of_not_lt h1
    linarith
  · exact hf
  · by_contra hcon
    push_neg at hcon
    have hk : k ≤ ⌊q⌋ := by omega
    have hk' : (k : ℚ) ≤ (⌊q⌋ : ℚ) := by exact_mod_cast hk
    have hge : 1 / 2 ≤ q - ⌊q⌋ := le_of_not_lt h1
    linarith

theorem linspaceIdx_head (n m : Nat) :
    (linspaceIdx n (m + 2)).head? = some 0 := by
  have h2 : ¬(m + 2 = 0) := by omega
  have h1 : ¬(m + 2 = 1) := by omega
  simp [linspaceIdx, h2, h1, List.range_succ_eq_map]

theorem linspaceIdx_getLast (n m : Nat) :
    (linspaceIdx n (m + 2)).getLast? = some ((n : ℚ) - 1) := by
  have h2 : ¬(m + 2 = 0) := by omega
  have h1 : ¬(m + 2 = 1) := by omega
  unfold linspaceIdx
  rw [if_neg h2, if_neg h1, List.range_succ, List.map_append]
  simp only [List.map_cons, List.map_nil, List.getLast?_concat]
  congr 1
  have hm0 : (0 : ℚ) ≤ (m : ℚ) := Nat.cast_nonneg m
  have hne : ((m : ℚ) + 1) ≠ 0 := ne_of_gt (by linarith)
  push_cast
  rw [show ((m : ℚ) + 2) - 1 = (m : ℚ) + 1 by ring]
  exact mul_div_cancel_left₀ _ hne

theorem selectChain_length (c : List Nat) (m : Nat) :
    (selectChain (m + 2) c).length = m + 2 := by
  have h2 : ¬(m + 2 = 0) := by omega
  have h1 : ¬(m + 2 = 1) := by omega
  simp [selectChain, selectedIdx, linspaceIdx, h2, h1]

theorem selectChain_head (c : List Nat) (m : Nat) (hc : c ≠ []) :
    (selectChain (m + 2) c).head? = c.head? := by
  unfold selectChain selectedIdx
  rw [List.head?_map, List.head?_map, linspaceIdx_head]
  cases c with
  | nil => cases hc rfl
  | cons a l => simp [pyRound_zero]

theorem selectChain_getLast (c : List Nat) (m : Nat) (hc : c ≠ []) :
    (selectChain (m + 2) c).getLast? = c.getLast? := by
  unfold selectChain selectedIdx
  rw [List.getLast?_map, List.getLast?_map, linspaceIdx_getLast]
  have hn : 1 ≤ c.length := List.length_pos.mpr hc
  have h1 : pyRound ((c.length : ℚ) - 1) = (c.length : ℤ) - 1 := by
    rw [show ((c.length : ℚ) - 1) = (((c.length : ℤ) - 1 : ℤ) : ℚ) by
      push_cast; ring]
    exact pyRound_intCast _
  rw [Option.map_map, Option.map_some']
  simp only [Function.comp_apply]
  rw [h1]
  have h2 : ((c.length : ℤ) - 1).toNat = c.length - 1 := by omega
  rw [h2]
  rw [List.getLast?_eq_getElem?, List.getD_eq_getElem?_getD]
  have h3 : c.length - 1 < c.length := by omega
  rw [List.getElem?_eq_getElem h3]
  simp

theorem selectedIdx_bounds (n m : Nat) (hn : m + 2 ≤ n) :
    ∀ i ∈ selectedIdx n (m + 2), 0 ≤ i ∧ i ≤ (n : ℤ) - 1 := by
  intro i hi
  have h2 : ¬(m + 2 = 0) := by omega
  have h1 : ¬(m + 2 = 1) := by omega
  unfold selectedIdx linspaceIdx at hi
  rw [if_neg h2, if_neg h1, List.mem_map] at hi
  obtain ⟨q, hq, rfl⟩ := hi
  rw [List.mem_map] at hq
  obtain ⟨j, hj, rfl⟩ := hq
  rw [List.mem_range] at hj
  have hn2 : (2 : ℚ) ≤ (n : ℚ) := by exact_mod_cast (by omega : 2 ≤ n)
  have hm0 : (0 : ℚ) ≤ (m : ℚ) := Nat.cast_nonneg m
  have hj' : (j : ℚ) ≤ (m : ℚ) + 1 := by
    exact_mod_cast (by omega : j ≤ m + 1)
  constructor
  · apply pyRound_nonneg
    apply div_nonneg
    · exact mul_nonneg (Nat.cast_nonneg j) (by linarith)
    · push_cast; linarith
  · have hcast : (((n : ℤ) - 1 : ℤ) : ℚ) = (n : ℚ) - 1 := by push_cast; ring
    apply pyRound_le
    rw [hcast]
    rw [div_le_iff₀ (by push_cast; linarith)]
    push_cast
    nlinarith

theorem neb_select_chains_error (images : Nat) :
    ∀ chains : List (List Nat), (∃ c ∈ chains, c.length < images) →
      ∃ e, neb_select_chains images chains = .error e := by
  intro chains
  induction chains with
  | nil => rintro ⟨c, hc, _⟩; cases hc
  | cons c rest ih =>
    rintro ⟨d, hd, hlen⟩
    rw [List.mem_cons] at hd
    by_cases hc : c.length < images
    · exact ⟨"number of images for NEB can not exceed the number of input frames",
        by simp [neb_select_chains, hc]⟩
    · rcases hd with rfl | hd
      · exact absurd hlen hc
      · obtain ⟨e, he⟩ := ih ⟨d, hd, hlen⟩
        exact ⟨e, by simp [neb_select_chains, hc, he]⟩

theorem neb_select_chains_ok (images : Nat) :
    ∀ chains : List (List Nat), (∀ c ∈ chains, images ≤ c.length) →
      neb_select_chains images chains =
        .ok (chains.map (selectChain images)) := by
  intro chains
  induction chains with
  | nil => intro _; rfl
  | cons c rest ih =>
    intro h
    have hc : ¬(c.length < images) :=
      not_lt_of_le (h c (List.mem_cons_self _ _))
    have hr := ih (fun d hd => h d (List.mem_cons_of_mem _ hd))
    simp [neb_select_chains, hc, hr]

/-- C10 counterexample: with images = 1 (the spec states no lower bound on
the images keyword) a two-frame chain is admitted and only its first frame
is selected — numpy linspace with one point yields only index 0 — so the
claim's "always including the first and last frame" fails. -/
theorem neb_chain_admission_counterexample :
    neb_add 1 [[10, 20]] 3 [] =
      ({ inserted_idx := [0], existing_idx := [] }, [1],
        [⟨1, 3, [10], RecordStatus.waiting⟩]) ∧
    [10, 20].getLast? = some 20 ∧ (20 : Nat) ∉ [10] := by
  have hsel : selectChain 1 [10, 20] = [10] := by
    simp [selectChain, selectedIdx, linspaceIdx, pyRound_zero]
  have hadd : neb_add 1 [[10, 20]] 3 [] = add_internal [[10]] 3 [] := by
    simp [neb_add, neb_select_chains, hsel]
  rw [hadd]
  refine ⟨by decide, by decide, by decide⟩

/-- C10 (amended): a call to NEB add with any initial chain shorter than the
images keyword returns error metadata with an empty id list and inserts no
records; otherwise exactly `images` frames are selected from each chain at
the rounded numpy-linspace indices over [0, len-1], including the first and
the last frame whenever images ≥ 2 (with images = 1 linspace yields only
index 0, so only the first frame is selected). -/
theorem neb_chain_admission (images : Nat) (chains : List (List Nat))
    (spec_id : Nat) (tbl : List NEBRecordRow) (h2 : 2 ≤ images) :
    ((∃ c ∈ chains, c.length < images) →
      ∃ e, neb_add images chains spec_id tbl =
        ({ inserted_idx := [], existing_idx := [],
           error_description := some e }, [], tbl)) ∧
    ((∀ c ∈ chains, images ≤ c.length) →
      neb_add images chains spec_id tbl =
        add_internal (chains.map (selectChain images)) spec_id tbl ∧
      ∀ c ∈ chains, (selectChain images c).length = images ∧
        (selectChain images c).head? = c.head? ∧
        (selectChain images c).getLast? = c.getLast? ∧
        ∀ i ∈ selectedIdx c.length images, 0 ≤ i ∧ i ≤ (c.length : ℤ) - 1) := by
  obtain ⟨m, rfl⟩ : ∃ m, images = m + 2 := ⟨images - 2, by omega⟩
  constructor
  · intro hex
    obtain ⟨e, he⟩ := neb_select_chains_error (m + 2) chains hex
    exact ⟨e, by simp [neb_add, he]⟩
  · intro hall
    refine ⟨by simp [neb_add, neb_select_chains_ok _ _ hall], ?_⟩
    intro c hc
    have hlen := hall c hc
    have hne : c ≠ [] := by
      intro h0; rw [h0] at hlen; simp at hlen
    exact ⟨selectChain_length c m, selectChain_head c m hne,
      selectChain_getLast c m hne, selectedIdx_bounds c.length m hlen⟩

/-- Witness for the amended chain admission with images = 3: a four-frame
chain is admitted and the selection keeps first and last frames, while a
two-frame chain aborts the call. -/
theorem neb_chain_admission_witness :
    (∃ e, neb_add 3 [[10, 20]] 7 [] =
      ({ inserted_idx := [], existing_idx := [],
         error_description := some e }, [], [])) ∧
    (neb_add 3 [[10, 20, 30, 40]] 7 [] =
        add_internal [selectChain 3 [10, 20, 30, 40]] 7 [] ∧
      ∀ c ∈ [[10, 20, 30, 40]], (selectChain 3 c).length = 3 ∧
        (selectChain 3 c).head? = c.head? ∧
        (selectChain 3 c).getLast? = c.getLast? ∧
        ∀ i ∈ selectedIdx c.length 3, 0 ≤ i ∧ i ≤ (c.length : ℤ) - 1) :=
  ⟨(neb_chain_admission 3 [[10, 20]] 7 [] (by decide)).1
      ⟨[10, 20], by decide, by decide⟩,
    by
      have h := (neb_chain_admission 3 [[10, 20, 30, 40]] 7 [] (by decide)).2
        (by decide)
      simpa using h⟩

end QCF
